import Mathlib

/-!
Shallow embedding of the travel-ai repository (budget agent, logistics JSON
extraction, style agent JSON validation) and verification of its specification.

Modelling conventions:
* Python floats are modelled as exact rationals (`ℚ`); every comparison and sum
  relevant here is exact in the source as well (no claim depends on rounding).
* Python strings are modelled as `String` / `List Char` (ASCII is all the
  claims exercise).
* A Python function that may raise is modelled as an `Option`-returning
  function, `none` standing for the raised exception.
* The external LLM lookup performed by `get_place_details` is modelled as a
  function from place name to an optional result; `budget_agent` is parametric
  in it, exactly as the source is parametric in whatever the API returns.
-/

set_option maxHeartbeats 1000000

namespace TravelAI

/-! ## budget_agent.py -/

/-- The validated result of `get_place_details`: a `cost` and a `review_score`
    both successfully converted to floats (source lines 71–73). -/
structure PlaceDetails where
  cost : ℚ
  review_score : ℚ
deriving DecidableEq, Repr

/-- Digit string to number, `float`-style positional evaluation. -/
def digitsToNat (l : List Char) : Nat :=
  l.foldl (fun n c => 10 * n + (c.toNat - 48)) 0

/-- `re.sub(r'[^\d.]', '', budget_str)`: keep only digits and dots. -/
def stripNonNumeric (s : List Char) : List Char :=
  s.filter (fun c => c.isDigit || c == '.')

/-- Python `float(s)` on a string consisting of digits and dots only (which is
    all `parse_budget` can feed it): accepts `D+`, `D+.D*`, `.D+`, and raises
    (`none`) on the empty string, a lone dot, or more than one dot. -/
def floatOfDigitsDots (s : List Char) : Option ℚ :=
  if s.all (fun c => c.isDigit || c == '.') then
    match s.splitOn '.' with
    | [ip] => if ip.isEmpty then none else some (digitsToNat ip)
    | [ip, fp] =>
        if ip.isEmpty && fp.isEmpty then none
        else some ((digitsToNat ip : ℚ) + (digitsToNat fp : ℚ) / (10 : ℚ) ^ fp.length)
    | _ => none
  else none

/-- `parse_budget` (budget_agent.py line 41): strip non-numeric characters and
    parse as a float; `none` models the `ValueError` that `float` raises on a
    malformed remainder. -/
def parse_budget (budget_str : String) : Option ℚ :=
  floatOfDigitsDots (stripNonNumeric budget_str.toList)

/-- One element of `final_places`: the dict `{'place': place, **details}`,
    optionally carrying the extra `score` key that only optional-candidate
    entries receive (budget_agent.py lines 109 and 120). -/
structure PlaceEntry where
  place : String
  cost : ℚ
  review_score : ℚ
  score : Option ℚ
deriving DecidableEq, Repr

/-- `unique_neg_places` (line 93): deduplicate `neg_places` and drop places
    already mandatory.  Python's `list(set(...))` iterates in an unspecified
    order; we model it with `List.dedup` — every claim proved below is
    insensitive to this order. -/
def unique_neg_places (non_neg_places neg_places : List String) : List String :=
  neg_places.dedup.filter (fun place => !(non_neg_places.contains place))

/-- The loop over `non_neg_places` (lines 104–110): keep the places whose
    details lookup succeeds, tagging each with its details. -/
def non_neg_places_details (lookup : String → Option PlaceDetails)
    (non_neg_places : List String) : List PlaceEntry :=
  non_neg_places.filterMap (fun place =>
    (lookup place).map (fun d => ⟨place, d.cost, d.review_score, none⟩))

/-- `current_cost` after the first loop (lines 105–110): the cost of the
    mandatory places whose lookup succeeded. -/
def initial_cost (lookup : String → Option PlaceDetails) (non_neg_places : List String) : ℚ :=
  ((non_neg_places_details lookup non_neg_places).map PlaceEntry.cost).sum

/-- The loop over `unique_neg_places` (lines 115–120): keep places whose
    lookup succeeds with strictly positive cost, and store
    `score = review_score / cost`. -/
def neg_places_details (lookup : String → Option PlaceDetails)
    (non_neg_places neg_places : List String) : List PlaceEntry :=
  (unique_neg_places non_neg_places neg_places).filterMap (fun place =>
    match lookup place with
    | some d =>
        if 0 < d.cost then
          some ⟨place, d.cost, d.review_score, some (d.review_score / d.cost)⟩
        else none
    | none => none)

/-- The sort key comparison for line 123, `sort(key=lambda x: x['score'],
    reverse=True)`: stable descending order on the stored `score`.  Every
    entry reaching the sort carries a `score` (constructed on line 120);
    `getD 0` is only a totalisation artifact. -/
def scoreGE (a b : PlaceEntry) : Bool := decide (b.score.getD 0 ≤ a.score.getD 0)

/-- Insert `e` behind every element whose score is strictly larger, and ahead
    of the first element whose score is at most `e`'s.  Inserting elements in
    input order makes this a stable sort. -/
def insertDesc (e : PlaceEntry) : List PlaceEntry → List PlaceEntry
  | [] => [e]
  | x :: xs => if scoreGE e x then e :: x :: xs else x :: insertDesc e xs

/-- Stable insertion sort, descending on `score`.  Python's `list.sort` is a
    stable sort, and a stable sort's output is uniquely determined by the
    comparator and the input order, so this models line 123 exactly. -/
def sortByScoreDesc : List PlaceEntry → List PlaceEntry
  | [] => []
  | x :: xs => insertDesc x (sortByScoreDesc xs)

/-- Lines 122–123: the optional candidates in the order the selection loop
    scans them. -/
def sorted_neg_details (lookup : String → Option PlaceDetails)
    (non_neg_places neg_places : List String) : List PlaceEntry :=
  sortByScoreDesc (neg_places_details lookup non_neg_places neg_places)

/-- The selection loop (lines 127–130): first-fit greedy scan threading
    `current_cost`, returning the appended places and the final cost. -/
def select_places (total_budget : ℚ) : ℚ → List PlaceEntry → List PlaceEntry × ℚ
  | current_cost, [] => ([], current_cost)
  | current_cost, e :: rest =>
    if current_cost + e.cost ≤ total_budget then
      let r := select_places total_budget (current_cost + e.cost) rest
      (e :: r.1, r.2)
    else select_places total_budget current_cost rest

/-- The output dict built on lines 132–136. -/
structure BudgetOutput where
  final_places : List PlaceEntry
  total_estimated_cost : ℚ
  total_budget : ℚ
deriving DecidableEq, Repr

/-- The body of `budget_agent` after the budget string has been parsed
    (lines 103–136).  `remaining_budget` (line 112) is computed by the source
    but never used, so it has no counterpart here. -/
def budget_run (lookup : String → Option PlaceDetails)
    (non_neg_places neg_places : List String) (total_budget : ℚ) : BudgetOutput :=
  let nn := non_neg_places_details lookup non_neg_places
  let current_cost := initial_cost lookup non_neg_places
  let sorted := sorted_neg_details lookup non_neg_places neg_places
  let sel := select_places total_budget current_cost sorted
  ⟨nn ++ sel.1, sel.2, total_budget⟩

/-- `budget_agent` (line 86): parse the budget string (propagating `float`'s
    `ValueError` as `none`) and run the selection. -/
def budget_agent (lookup : String → Option PlaceDetails)
    (non_neg_places neg_places : List String) (total_budget_str : String) :
    Option BudgetOutput :=
  (parse_budget total_budget_str).map (budget_run lookup non_neg_places neg_places)

/-- A field value of the serialised output object. -/
inductive JsonField where
  | placeList (l : List PlaceEntry)
  | number (q : ℚ)
deriving DecidableEq

/-- The key/value pairs of the dict literal on lines 132–136, in source
    order. -/
def output_pairs (o : BudgetOutput) : List (String × JsonField) :=
  [("final_places", JsonField.placeList o.final_places),
   ("total_estimated_cost", JsonField.number o.total_estimated_cost),
   ("total_budget", JsonField.number o.total_budget)]

/-- The file writes a run of `budget_agent` performs (lines 138–140): one
    `(path, serialised object)` pair per `open(...).write`, empty when the
    run raised before reaching the write. -/
def budget_agent_writes (lookup : String → Option PlaceDetails)
    (non_neg_places neg_places : List String) (total_budget_str : String) :
    List (String × List (String × JsonField)) :=
  match budget_agent lookup non_neg_places neg_places total_budget_str with
  | some out => [("budget_output.json", output_pairs out)]
  | none => []

/-- A concrete lookup outcome used to exercise the theorems: one mandatory
    place `m`, optional candidates `a` (ratio 1/10), `b` (ratio 1/5), and a
    zero-cost candidate `z`. -/
def witnessLookup : String → Option PlaceDetails := fun p =>
  if p = "m" then some ⟨250, 9⟩
  else if p = "a" then some ⟨100, 10⟩
  else if p = "b" then some ⟨30, 6⟩
  else if p = "z" then some ⟨0, 5⟩
  else none

/-! ## A model of Python `json.loads`

Numbers are parsed to exact rationals (Python would round decimals/exponents
to the nearest float; no claim depends on that rounding).  The Python
extensions `NaN`/`Infinity` and lone surrogates from `\uXXXX` escapes are not
representable here (floats/lone surrogates do not exist in `ℚ`/`Char`); no
claim exercises them. -/

/-- A parsed JSON value. -/
inductive JVal where
  | null
  | bool (b : Bool)
  | num (q : ℚ)
  | str (s : List Char)
  | arr (xs : List JVal)
  | obj (kvs : List (List Char × JVal))

/-- JSON whitespace, as accepted by `json.loads` between tokens. -/
def jsonWS (c : Char) : Bool := c == ' ' || c == '\t' || c == '\n' || c == '\r'

def skipWS (s : List Char) : List Char := s.dropWhile jsonWS

def hexDigitVal (c : Char) : Option Nat :=
  if c.isDigit then some (c.toNat - 48)
  else if 'a' ≤ c && c ≤ 'f' then some (c.toNat - 87)
  else if 'A' ≤ c && c ≤ 'F' then some (c.toNat - 55)
  else none

/-- Four hex digits of a `\uXXXX` escape. -/
def parseHex4 : List Char → Option (Nat × List Char)
  | a :: b :: c :: d :: rest => do
    let va ← hexDigitVal a
    let vb ← hexDigitVal b
    let vc ← hexDigitVal c
    let vd ← hexDigitVal d
    pure (((va * 16 + vb) * 16 + vc) * 16 + vd, rest)
  | _ => none

/-- Body of a JSON string after the opening quote, strict mode: raw control
    characters are rejected, the escapes are `\" \\ \/ \b \f \n \r \t \uXXXX`,
    and surrogate pairs are combined.  (A lone surrogate, which Python would
    keep, is mapped to U+FFFD — unrepresentable in `Char`.) -/
def parseStringBody : Nat → List Char → Option (List Char × List Char)
  | 0, _ => none
  | _, [] => none
  | fuel + 1, c :: rest =>
    if c == '"' then some ([], rest)
    else if c == '\\' then
      match rest with
      | [] => none
      | e :: rest2 =>
        if e == 'u' then do
          let (n, rest3) ← parseHex4 rest2
          if 0xD800 ≤ n && n ≤ 0xDBFF then
            match rest3 with
            | '\\' :: 'u' :: rest4 => do
              let (m, rest5) ← parseHex4 rest4
              if 0xDC00 ≤ m && m ≤ 0xDFFF then
                let code := 0x10000 + (n - 0xD800) * 0x400 + (m - 0xDC00)
                let (tail, r) ← parseStringBody fuel rest5
                pure (Char.ofNat code :: tail, r)
              else do
                let (tail, r) ← parseStringBody fuel ('\\' :: 'u' :: rest4)
                pure ('�' :: tail, r)
            | _ => do
              let (tail, r) ← parseStringBody fuel rest3
              pure ('�' :: tail, r)
          else if 0xDC00 ≤ n && n ≤ 0xDFFF then do
            let (tail, r) ← parseStringBody fuel rest3
            pure ('�' :: tail, r)
          else do
            let (tail, r) ← parseStringBody fuel rest3
            pure (Char.ofNat n :: tail, r)
        else do
          let unescaped ←
            if e == '"' then some '"'
            else if e == '\\' then some '\\'
            else if e == '/' then some '/'
            else if e == 'b' then some '\x08'
            else if e == 'f' then some '\x0c'
            else if e == 'n' then some '\n'
            else if e == 'r' then some '\r'
            else if e == 't' then some '\t'
            else none
          let (tail, r) ← parseStringBody fuel rest2
          pure (unescaped :: tail, r)
    else if c.toNat < 32 then none
    else do
      let (tail, r) ← parseStringBody fuel rest
      pure (c :: tail, r)

/-- A JSON number: `-? (0 | [1-9][0-9]*) (\.[0-9]+)? ([eE][-+]?[0-9]+)?`,
    evaluated exactly. -/
def parseNumber (s : List Char) : Option (ℚ × List Char) :=
  let signed : Bool × List Char := match s with
    | '-' :: r => (true, r)
    | _ => (false, s)
  match signed.2 with
  | [] => none
  | c :: r =>
    if !c.isDigit then none
    else
      let intDigits : List Char × List Char :=
        if c == '0' then ([c], r)
        else ((c :: r).span Char.isDigit)
      let afterInt := intDigits.2
      let fracPart : List Char × List Char :=
        match afterInt with
        | '.' :: d :: r2 =>
          if d.isDigit then ((d :: r2).span Char.isDigit) else ([], afterInt)
        | _ => ([], afterInt)
      let afterFrac := fracPart.2
      let expPart : Option (Int × List Char) :=
        match afterFrac with
        | e :: r2 =>
          if e == 'e' || e == 'E' then
            match r2 with
            | '-' :: d :: r3 =>
              if d.isDigit then
                let dr := (d :: r3).span Char.isDigit
                some (-(digitsToNat dr.1 : Int), dr.2)
              else none
            | '+' :: d :: r3 =>
              if d.isDigit then
                let dr := (d :: r3).span Char.isDigit
                some ((digitsToNat dr.1 : Int), dr.2)
              else none
            | d :: r3 =>
              if d.isDigit then
                let dr := (d :: r3).span Char.isDigit
                some ((digitsToNat dr.1 : Int), dr.2)
              else none
            | [] => none
          else none
        | [] => none
      let base : ℚ := (digitsToNat intDigits.1 : ℚ) +
        (digitsToNat fracPart.1 : ℚ) / (10 : ℚ) ^ fracPart.1.length
      let withExp : ℚ × List Char :=
        match expPart with
        | some (e, r2) => (base * (10 : ℚ) ^ e, r2)
        | none => (base, afterFrac)
      some (if signed.1 then -withExp.1 else withExp.1, withExp.2)

mutual

/-- One JSON value, leading whitespace allowed (`json.loads` grammar). -/
def parseValue : Nat → List Char → Option (JVal × List Char)
  | 0, _ => none
  | fuel + 1, s =>
    match skipWS s with
    | 'n' :: 'u' :: 'l' :: 'l' :: rest => some (.null, rest)
    | 't' :: 'r' :: 'u' :: 'e' :: rest => some (.bool true, rest)
    | 'f' :: 'a' :: 'l' :: 's' :: 'e' :: rest => some (.bool false, rest)
    | '"' :: rest => do
      let (str, r) ← parseStringBody (fuel + 1) rest
      pure (.str str, r)
    | '[' :: rest =>
      (match skipWS rest with
       | ']' :: r => some (.arr [], r)
       | _ => do
         let (v, r) ← parseValue fuel rest
         parseArrayRest fuel [v] r)
    | '{' :: rest =>
      (match skipWS rest with
       | '}' :: r => some (.obj [], r)
       | _ => parseObjectRest fuel [] rest)
    | other => do
      let (q, r) ← parseNumber other
      pure (.num q, r)

/-- After one array element: `, value` repeated, then `]`. -/
def parseArrayRest : Nat → List JVal → List Char → Option (JVal × List Char)
  | 0, _, _ => none
  | fuel + 1, acc, s =>
    match skipWS s with
    | ']' :: r => some (.arr acc.reverse, r)
    | ',' :: r => do
      let (v, r2) ← parseValue fuel r
      parseArrayRest fuel (v :: acc) r2
    | _ => none

/-- Object members: `"key" : value` separated by commas, then `}`.  Called
    with the input positioned before a key. -/
def parseObjectRest : Nat → List (List Char × JVal) → List Char →
    Option (JVal × List Char)
  | 0, _, _ => none
  | fuel + 1, acc, s =>
    match skipWS s with
    | '"' :: rest => do
      let (key, r) ← parseStringBody (fuel + 1) rest
      match skipWS r with
      | ':' :: r2 => do
        let (v, r3) ← parseValue fuel r2
        match skipWS r3 with
        | '}' :: r4 => some (.obj ((key, v) :: acc).reverse, r4)
        | ',' :: r4 => parseObjectRest fuel ((key, v) :: acc) r4
        | _ => none
      | _ => none
    | _ => none

end

/-- `json.loads`: parse one value and require only whitespace to follow;
    `none` models the raised `JSONDecodeError`. -/
def jsonParse (s : List Char) : Option JVal :=
  match parseValue (2 * s.length + 2) s with
  | some (v, rest) => if (skipWS rest).isEmpty then some v else none
  | none => none

/-- Python `dict` lookup on a parsed object: with duplicate keys,
    `json.loads` keeps the last occurrence. -/
def jlookup (kvs : List (List Char × JVal)) (k : List Char) : Option JVal :=
  (kvs.reverse.find? (fun kv => kv.1 == k)).map (fun kv => kv.2)

/-! ## logistics.py: `extract_json_from_text`

The two regexes of lines 92 and 95 are modelled directly with Python `re`
semantics (leftmost match start; at a given start, `.*?` takes the shortest
and `.*` the longest completion; `re.S` makes `.` match newlines).  `\s` is
the ASCII whitespace class (the claims never exercise non-ASCII spaces). -/

/-- The `\s` character class. -/
def reWS (c : Char) : Bool :=
  c == ' ' || c == '\t' || c == '\n' || c == '\r' || c == '\x0b' || c == '\x0c'

def dropREWS (s : List Char) : List Char := s.dropWhile reWS

/-- The three-backtick fence literal. -/
def fence : List Char := "```".toList

/-- The lazy tail `.*?\}\s*` + "```" of the fenced regex: scanning left to
    right, stop at the first `}` that is followed by whitespace and then a
    fence; the capture is everything consumed so far (accumulated reversed in
    `acc`) plus that `}`. -/
def findClose (acc : List Char) : List Char → Option (List Char)
  | [] => none
  | c :: rest =>
    if c == '}' && fence.isPrefixOf (dropREWS rest) then
      some (acc.reverse ++ ['}'])
    else findClose (c :: acc) rest

/-- Attempt the regex `` ```json\s*(\{.*?\})\s*``` `` at this start position:
    the literal, then (deterministically, since `{` is not whitespace) the
    whitespace run, then a `{`, then the lazy scan for the closing brace. -/
def tryFencedAt (s : List Char) : Option (List Char) :=
  if "```json".toList.isPrefixOf s then
    match dropREWS (s.drop 7) with
    | '{' :: body => findClose ['{'] body
    | _ => none
  else none

/-- `re.search` of the fenced regex (line 92): first start position at which
    the pattern matches, returning group 1. -/
def searchFenced : List Char → Option (List Char)
  | [] => none
  | c :: rest =>
    match tryFencedAt (c :: rest) with
    | some g => some g
    | none => searchFenced rest

/-- The literal `\"trip_overview\"` of the loose regex. -/
def tripKey : List Char := "\"trip_overview\"".toList

/-- Longest prefix ending in `}`; `none` when the list has no `}`.  This is
    the greedy `.*\}` of the loose regex. -/
def cutAtLastClose (l : List Char) : Option (List Char) :=
  let r := l.reverse.dropWhile (fun c => c != '}')
  if r.isEmpty then none else some r.reverse

/-- Attempt the regex `(\{\s*\"trip_overview\".*\})` (line 95) at this start
    position. -/
def tryLooseAt (s : List Char) : Option (List Char) :=
  match s with
  | '{' :: rest =>
    let wsLen := (rest.takeWhile reWS).length
    if tripKey.isPrefixOf (rest.drop wsLen) then
      let headLen := 1 + wsLen + tripKey.length
      match cutAtLastClose (s.drop headLen) with
      | some tail => some (s.take headLen ++ tail)
      | none => none
    else none
  | _ => none

/-- `re.search` of the loose regex (line 95). -/
def searchLoose : List Char → Option (List Char)
  | [] => none
  | c :: rest =>
    match tryLooseAt (c :: rest) with
    | some g => some g
    | none => searchLoose rest

/-- `extract_json_from_text` (logistics.py lines 89–110).  Note the source's
    control flow: once a regex matches, its captured group is handed to
    `json.loads` and a parse failure returns `None` directly — the later
    strategies are only reached when the earlier regex fails to match. -/
def extract_json_from_text (text : List Char) : Option JVal :=
  match searchFenced text with
  | some g => jsonParse g
  | none =>
    match searchLoose text with
    | some g => jsonParse g
    | none => jsonParse text

/-- The backtick character (written by code point to keep it out of the
    source text). -/
def tick : Char := Char.ofNat 96

/-- An input text consisting of a single fenced block: the prompt of
    logistics.py asks the model for exactly this shape
    (` ```json` + newline + object + newline + ` ``` `). -/
def fenceWrap (j : List Char) : List Char :=
  "```json\n".toList ++ j ++ "\n```".toList

/-! ## budget_agent.py: `get_place_details` over a raw LLM response

`str()` on a parsed JSON value is modelled by `pyStr`/`pyRepr`.  The `ℚ`
number model cannot distinguish Python's `int` from `float` (`str(1)` vs
`str(1.0)`), and very large/small floats would be printed in `e`-notation;
integral values render as integers here and terminating decimal expansions
(the only ones `json.loads` produces) render exactly.  No claim depends on
the rendering of a numeric field. -/

def natDigits (n : Nat) : List Char := Nat.toDigits 10 n

/-- Decimal digits of a fraction `r / d` (with `r < d`), one digit per fuel
    step, stopping when the remainder hits zero. -/
def fracDigits : Nat → Nat → Nat → List Char
  | 0, _, _ => []
  | _, 0, _ => []
  | fuel + 1, r, d =>
    let r10 := r * 10
    Char.ofNat (48 + r10 / d) :: fracDigits fuel (r10 % d) d

/-- Decimal rendering of a non-negative rational. -/
def ratDigits (q : ℚ) : List Char :=
  if q.den = 1 then natDigits q.num.natAbs
  else
    natDigits (q.num.natAbs / q.den) ++
      '.' :: fracDigits q.den (q.num.natAbs % q.den) q.den

/-- `str` of a number. -/
def pyStrNum (q : ℚ) : List Char :=
  if q < 0 then '-' :: ratDigits (-q) else ratDigits q

mutual

/-- Python `repr` of a decoded JSON value (used by `str` for containers). -/
def pyRepr : JVal → List Char
  | .null => "None".toList
  | .bool true => "True".toList
  | .bool false => "False".toList
  | .num q => pyStrNum q
  | .str s => Char.ofNat 39 :: s ++ [Char.ofNat 39]
  | .arr xs => '[' :: pyReprList xs ++ [']']
  | .obj kvs => '{' :: pyReprKVs kvs ++ ['}']

def pyReprList : List JVal → List Char
  | [] => []
  | [x] => pyRepr x
  | x :: y :: rest => pyRepr x ++ ',' :: ' ' :: pyReprList (y :: rest)

def pyReprKVs : List (List Char × JVal) → List Char
  | [] => []
  | [kv] => Char.ofNat 39 :: kv.1 ++ Char.ofNat 39 :: ':' :: ' ' :: pyRepr kv.2
  | kv :: kv2 :: rest =>
      Char.ofNat 39 :: kv.1 ++ Char.ofNat 39 :: ':' :: ' ' :: pyRepr kv.2 ++
        ',' :: ' ' :: pyReprKVs (kv2 :: rest)

end

/-- Python `str` of a decoded JSON value: strings are rendered bare, anything
    else as its `repr`. -/
def pyStr : JVal → List Char
  | .str s => s
  | v => pyRepr v

/-- `re.search(r'(\d+\.?\d*)', s)` followed by `float(...)` (lines 63–72):
    the first digit run, with an optional dot and further digits. -/
def firstNumber : List Char → Option ℚ
  | [] => none
  | c :: rest =>
    if c.isDigit then
      let intRun := (c :: rest).span Char.isDigit
      match intRun.2 with
      | '.' :: r2 =>
        let fracRun := r2.span Char.isDigit
        some ((digitsToNat intRun.1 : ℚ) +
          (digitsToNat fracRun.1 : ℚ) / (10 : ℚ) ^ fracRun.1.length)
      | _ => some (digitsToNat intRun.1)
    else firstNumber rest

/-- `get_place_details` (lines 46–83) as a function of the raw LLM response:
    `none` response models the API call raising (caught on line 81).  A
    response that is not a JSON object ends at `return None` either via the
    line 61 check, the broad `except`, or the inner `(ValueError, TypeError)`
    catch — all modelled by the non-object branch. -/
def get_place_details (response : Option (List Char)) : Option PlaceDetails :=
  match response with
  | none => none
  | some raw =>
    match jsonParse raw with
    | none => none
    | some (.obj kvs) =>
      match jlookup kvs "cost".toList, jlookup kvs "review_score".toList with
      | some costVal, some reviewVal =>
        match firstNumber (pyStr costVal), firstNumber (pyStr reviewVal) with
        | some c, some r => some ⟨c, r⟩
        | _, _ => none
      | _, _ => none
    | some _ => none

/-- Concrete raw LLM responses used to exercise the error-path theorem: place
    `bad` gets an unparseable response, `m` and `b` get well-formed ones, and
    everything else gets a raised call. -/
def witnessResponses : String → Option (List Char) := fun p =>
  if p = "bad" then some "oops".toList
  else if p = "m" then some "\x7b\"cost\": 250, \"review_score\": 9\x7d".toList
  else if p = "b" then some "\x7b\"cost\": 30, \"review_score\": 6\x7d".toList
  else none

/-! ## style_agent.py: `StyleAgent._parse_and_validate_json` -/

/-- Python `str.strip()` whitespace (ASCII part; the claims never exercise
    non-ASCII spaces). -/
def pyStrip (s : List Char) : List Char :=
  ((s.dropWhile reWS).reverse.dropWhile reWS).reverse

/-- Python `s.split('\n')`: `n` separators yield `n + 1` (possibly empty)
    parts; in particular the empty string yields one part. -/
def splitNl (s : List Char) : List (List Char) := s.splitOn '\n'

/-- Is this decoded value a JSON string? (`isinstance(loc, str)`) -/
def isStrVal : JVal → Bool
  | .str _ => true
  | _ => false

/-- `_parse_and_validate_json` (style_agent.py lines 94–133): markdown-fence
    cleanup, `json.loads`, then the schema checks; every `raise` is `none`,
    and a passing input returns the decoded dict unchanged. -/
def parse_and_validate_json (json_string : List Char) : Option JVal :=
  let s1 :=
    if "```json".toList.isPrefixOf json_string
    then pyStrip (json_string.drop 7) else json_string
  let s2 :=
    if fence.isSuffixOf s1
    then pyStrip (s1.take (s1.length - 3)) else s1
  match jsonParse s2 with
  | none => none
  | some (.obj kvs) =>
    match jlookup kvs "places".toList, jlookup kvs "locations".toList with
    | some (.str places), some (.arr locs) =>
      if locs.all isStrVal &&
          (splitNl (pyStrip places)).length == locs.length
      then some (.obj kvs) else none
    | _, _ => none
  | some _ => none

/-! ## Helper lemmas: the selection loop -/

theorem select_places_snd (B : ℚ) :
    ∀ (l : List PlaceEntry) (c : ℚ),
      (select_places B c l).2 = c + ((select_places B c l).1.map PlaceEntry.cost).sum
  | [], c => by simp [select_places]
  | e :: rest, c => by
    by_cases h : c + e.cost ≤ B
    · simp only [select_places, if_pos h, List.map_cons, List.sum_cons,
        select_places_snd B rest (c + e.cost)]
      ring
    · simp only [select_places, if_neg h, select_places_snd B rest c]

theorem select_places_le (B : ℚ) :
    ∀ (l : List PlaceEntry) (c : ℚ), c ≤ B → (select_places B c l).2 ≤ B
  | [], c, hc => hc
  | e :: rest, c, hc => by
    by_cases h : c + e.cost ≤ B
    · simpa only [select_places, if_pos h] using select_places_le B rest (c + e.cost) h
    · simpa only [select_places, if_neg h] using select_places_le B rest c hc

theorem select_places_append (B : ℚ) :
    ∀ (xs ys : List PlaceEntry) (c : ℚ),
      select_places B c (xs ++ ys) =
        ((select_places B c xs).1 ++ (select_places B (select_places B c xs).2 ys).1,
          (select_places B (select_places B c xs).2 ys).2)
  | [], ys, c => by simp [select_places]
  | e :: rest, ys, c => by
    by_cases h : c + e.cost ≤ B
    · simp only [List.cons_append, select_places, if_pos h, List.append_eq,
        select_places_append B rest ys (c + e.cost)]
    · simp only [List.cons_append, select_places, if_neg h, List.append_eq,
        select_places_append B rest ys c]

theorem mem_select_places (B : ℚ) :
    ∀ (l : List PlaceEntry) (c : ℚ) (e : PlaceEntry),
      e ∈ (select_places B c l).1 → e ∈ l
  | [], c, e, h => by simp [select_places] at h
  | x :: rest, c, e, h => by
    by_cases hx : c + x.cost ≤ B
    · simp only [select_places, if_pos hx, List.mem_cons] at h
      rcases h with h | h
      · rw [h]; exact List.mem_cons_self x rest
      · exact List.mem_cons_of_mem _ (mem_select_places B rest (c + x.cost) e h)
    · simp only [select_places, if_neg hx] at h
      exact List.mem_cons_of_mem _ (mem_select_places B rest c e h)

/-! ## Helper lemmas: the stable descending sort -/

theorem insertDesc_perm (e : PlaceEntry) :
    ∀ l : List PlaceEntry, (insertDesc e l).Perm (e :: l)
  | [] => List.Perm.refl _
  | x :: xs => by
    by_cases h : scoreGE e x
    · simp [insertDesc, h]
    · simp only [insertDesc, if_neg h]
      exact ((insertDesc_perm e xs).cons x).trans (List.Perm.swap e x xs)

theorem sortByScoreDesc_perm :
    ∀ l : List PlaceEntry, (sortByScoreDesc l).Perm l
  | [] => List.Perm.refl _
  | x :: xs =>
    (insertDesc_perm x (sortByScoreDesc xs)).trans ((sortByScoreDesc_perm xs).cons x)

theorem scoreGE_total {a b : PlaceEntry} (h : ¬ scoreGE a b = true) : scoreGE b a = true := by
  simp only [scoreGE, decide_eq_true_eq] at h ⊢
  exact le_of_not_le h

theorem scoreGE_trans {a b c : PlaceEntry} (hab : scoreGE a b = true)
    (hbc : scoreGE b c = true) : scoreGE a c = true := by
  simp only [scoreGE, decide_eq_true_eq] at hab hbc ⊢
  exact hbc.trans hab

theorem pairwise_insertDesc (e : PlaceEntry) :
    ∀ l : List PlaceEntry, l.Pairwise (fun a b => scoreGE a b = true) →
      (insertDesc e l).Pairwise (fun a b => scoreGE a b = true)
  | [], _ => by simp [insertDesc]
  | x :: xs, h => by
    rcases List.pairwise_cons.mp h with ⟨hx, hxs⟩
    by_cases hge : scoreGE e x
    · simp only [insertDesc, if_pos hge]
      refine List.pairwise_cons.mpr ⟨?_, h⟩
      intro b hb
      rcases List.mem_cons.mp hb with rfl | hb
      · exact hge
      · exact scoreGE_trans hge (hx b hb)
    · simp only [insertDesc, if_neg hge]
      refine List.pairwise_cons.mpr ⟨?_, pairwise_insertDesc e xs hxs⟩
      intro b hb
      have hmem := (insertDesc_perm e xs).mem_iff.mp hb
      rcases List.mem_cons.mp hmem with rfl | hb'
      · exact scoreGE_total hge
      · exact hx b hb'

theorem sortByScoreDesc_pairwise :
    ∀ l : List PlaceEntry, (sortByScoreDesc l).Pairwise (fun a b => scoreGE a b = true)
  | [] => List.Pairwise.nil
  | x :: xs => pairwise_insertDesc x (sortByScoreDesc xs) (sortByScoreDesc_pairwise xs)

/-! ## Helper lemmas: shapes of the detail lists -/

theorem mem_non_neg_places_details {lookup : String → Option PlaceDetails}
    {nn : List String} {e : PlaceEntry} (h : e ∈ non_neg_places_details lookup nn) :
    ∃ place d, place ∈ nn ∧ lookup place = some d ∧
      e = ⟨place, d.cost, d.review_score, none⟩ := by
  rcases List.mem_filterMap.mp h with ⟨place, hmem, hsome⟩
  rcases Option.map_eq_some'.mp hsome with ⟨d, hd, he⟩
  exact ⟨place, d, hmem, hd, he.symm⟩

theorem mem_neg_places_details {lookup : String → Option PlaceDetails}
    {nn neg : List String} {e : PlaceEntry} (h : e ∈ neg_places_details lookup nn neg) :
    ∃ place d, place ∈ unique_neg_places nn neg ∧ lookup place = some d ∧ 0 < d.cost ∧
      e = ⟨place, d.cost, d.review_score, some (d.review_score / d.cost)⟩ := by
  rcases List.mem_filterMap.mp h with ⟨place, hmem, hsome⟩
  refine ⟨place, ?_⟩
  rcases hd : lookup place with _ | d
  · simp only [hd] at hsome
    exact absurd hsome (by simp)
  · simp only [hd] at hsome
    by_cases hc : 0 < d.cost
    · rw [if_pos hc] at hsome
      exact ⟨d, hmem, rfl, hc, (Option.some_inj.mp hsome).symm⟩
    · rw [if_neg hc] at hsome
      exact absurd hsome (by simp)

/-! ## Helper lemmas: removing a place whose lookup fails -/

theorem dedup_filter_comm (p : String → Bool) :
    ∀ l : List String, (l.filter p).dedup = l.dedup.filter p
  | [] => rfl
  | a :: l => by
    by_cases hp : p a
    · rw [List.filter_cons_of_pos hp]
      by_cases hmem : a ∈ l
      · rw [List.dedup_cons_of_mem hmem, List.dedup_cons_of_mem
          (List.mem_filter.mpr ⟨hmem, hp⟩), dedup_filter_comm p l]
      · rw [List.dedup_cons_of_not_mem hmem, List.dedup_cons_of_not_mem
          (fun hc => hmem (List.mem_filter.mp hc).1), List.filter_cons_of_pos hp,
          dedup_filter_comm p l]
    · rw [List.filter_cons_of_neg (by simpa using hp)]
      by_cases hmem : a ∈ l
      · rw [List.dedup_cons_of_mem hmem, dedup_filter_comm p l]
      · rw [List.dedup_cons_of_not_mem hmem, List.filter_cons_of_neg (by simpa using hp),
          dedup_filter_comm p l]

theorem filterMap_filter_congr {α β : Type} (g : α → Option β) (p q : α → Bool) :
    ∀ l : List α, (∀ a ∈ l, p a = q a ∨ g a = none) →
      (l.filter p).filterMap g = (l.filter q).filterMap g
  | [], _ => rfl
  | a :: l, h => by
    have ih := filterMap_filter_congr g p q l (fun x hx => h x (List.mem_cons_of_mem a hx))
    rcases h a (List.mem_cons_self a l) with hpq | hg
    · by_cases hp : p a
      · rw [List.filter_cons_of_pos hp, List.filter_cons_of_pos (hpq ▸ hp),
          List.filterMap_cons, List.filterMap_cons, ih]
      · rw [List.filter_cons_of_neg (by simpa using hp),
          List.filter_cons_of_neg (by simp [← hpq]; simpa using hp), ih]
    · by_cases hp : p a
      · by_cases hq : q a
        · rw [List.filter_cons_of_pos hp, List.filter_cons_of_pos hq,
            List.filterMap_cons, List.filterMap_cons, hg, ih]
        · rw [List.filter_cons_of_pos hp, List.filter_cons_of_neg (by simpa using hq),
            List.filterMap_cons, hg, ih]
      · by_cases hq : q a
        · rw [List.filter_cons_of_neg (by simpa using hp), List.filter_cons_of_pos hq,
            List.filterMap_cons, hg, ih]
        · rw [List.filter_cons_of_neg (by simpa using hp),
            List.filter_cons_of_neg (by simpa using hq), ih]

theorem filterMap_filter_of_none {α β : Type} [DecidableEq α] (g : α → Option β)
    (t : α) (hg : g t = none) (l : List α) :
    (l.filter (fun a => a != t)).filterMap g = l.filterMap g := by
  induction l with
  | nil => rfl
  | cons a l ih =>
    by_cases ha : a = t
    · subst ha
      rw [List.filter_cons_of_neg (by simp), List.filterMap_cons, hg, ih]
    · rw [List.filter_cons_of_pos (by simp [ha]), List.filterMap_cons,
        List.filterMap_cons, ih]

theorem budget_run_def (lookup : String → Option PlaceDetails)
    (nn neg : List String) (b : ℚ) :
    budget_run lookup nn neg b =
      ⟨non_neg_places_details lookup nn ++
          (select_places b (initial_cost lookup nn) (sorted_neg_details lookup nn neg)).1,
        (select_places b (initial_cost lookup nn) (sorted_neg_details lookup nn neg)).2,
        b⟩ := rfl

/-! ## The claims about `budget_agent` -/

/-- C1 (amended): whenever the summed cost of the successfully-looked-up
    mandatory places fits in the parsed budget, the `total_estimated_cost`
    recorded in the output never exceeds the budget.  (Unconditionally the
    claim is false: mandatory places are charged regardless of budget, see
    `budget_exceeds_budget_counterexample`.) -/
theorem budget_within_budget_of_mandatory_fits (lookup : String → Option PlaceDetails)
    (nn neg : List String) (b : ℚ) (h : initial_cost lookup nn ≤ b) :
    (budget_run lookup nn neg b).total_estimated_cost ≤
      (budget_run lookup nn neg b).total_budget := by
  rw [budget_run_def]
  exact select_places_le b _ _ h

/-- C1 counterexample: a mandatory place costing 500 against a `$300` budget
    completes the run with `total_estimated_cost = 500 > 300 = total_budget`. -/
theorem budget_exceeds_budget_counterexample :
    budget_agent (fun p => if p = "museum" then some ⟨500, 8⟩ else none)
        ["museum"] [] "$300" =
      some ⟨[⟨"museum", 500, 8, none⟩], 500, 300⟩ ∧
    ¬ ((500 : ℚ) ≤ (300 : ℚ)) := by
  constructor
  · have hb : parse_budget "$300" = some 300 := by
      simp +decide [parse_budget, stripNonNumeric, floatOfDigitsDots, digitsToNat]
    simp +decide [budget_agent, hb, budget_run, budget_run_def, initial_cost,
      non_neg_places_details, neg_places_details, unique_neg_places,
      sorted_neg_details, sortByScoreDesc, select_places, List.dedup]
  · norm_num

/-- C2 (amended): every mandatory place whose details lookup succeeds appears
    in `final_places` with its details, regardless of its cost and of the
    remaining budget.  (Unconditionally the claim is false: a mandatory place
    whose lookup fails is dropped, see
    `mandatory_place_omitted_counterexample`.) -/
theorem mandatory_place_included (lookup : String → Option PlaceDetails)
    (nn neg : List String) (b : ℚ) (place : String) (d : PlaceDetails)
    (hp : place ∈ nn) (hd : lookup place = some d) :
    (⟨place, d.cost, d.review_score, none⟩ : PlaceEntry) ∈
      (budget_run lookup nn neg b).final_places := by
  rw [budget_run_def]
  exact List.mem_append_left _
    (List.mem_filterMap.mpr ⟨place, hp, by rw [hd]; rfl⟩)

/-- C2 counterexample: when every lookup fails, a run with mandatory place
    `louvre` completes with `final_places` not containing it. -/
theorem mandatory_place_omitted_counterexample :
    (budget_agent (fun _ => none) ["louvre"] [] "$300").map
      (fun o => o.final_places.any (fun e => e.place == "louvre")) = some false := by
  have hb : parse_budget "$300" = some 300 := by
    simp +decide [parse_budget, stripNonNumeric, floatOfDigitsDots, digitsToNat]
  simp +decide [budget_agent, hb, budget_run, initial_cost, non_neg_places_details,
    neg_places_details, unique_neg_places, sorted_neg_details, sortByScoreDesc,
    select_places, List.dedup]

/-- C3: the optional candidates are scanned in descending
    `review_score / cost` order (a permutation of the candidate list), the
    selected optional places are exactly the first-fit scan of that order,
    and at every split point of the scan the head candidate is taken exactly
    when it still fits, while all later candidates are scanned either way. -/
theorem optional_selection_sorted_first_fit (lookup : String → Option PlaceDetails)
    (nn neg : List String) (b : ℚ) :
    (sorted_neg_details lookup nn neg).Perm (neg_places_details lookup nn neg) ∧
    (sorted_neg_details lookup nn neg).Pairwise
      (fun a c => c.review_score / c.cost ≤ a.review_score / a.cost) ∧
    (budget_run lookup nn neg b).final_places =
      non_neg_places_details lookup nn ++
        (select_places b (initial_cost lookup nn) (sorted_neg_details lookup nn neg)).1 ∧
    (∀ xs e ys, sorted_neg_details lookup nn neg = xs ++ e :: ys →
      (select_places b (initial_cost lookup nn) (xs ++ e :: ys)).1 =
        (select_places b (initial_cost lookup nn) xs).1 ++
          (if (select_places b (initial_cost lookup nn) xs).2 + e.cost ≤ b then
            e :: (select_places b
              ((select_places b (initial_cost lookup nn) xs).2 + e.cost) ys).1
          else
            (select_places b ((select_places b (initial_cost lookup nn) xs).2) ys).1)) := by
  refine ⟨sortByScoreDesc_perm _, ?_, rfl, ?_⟩
  · refine (sortByScoreDesc_pairwise _).imp_of_mem ?_
    intro a c ha hc hge
    have ha' := (sortByScoreDesc_perm _).mem_iff.mp ha
    have hc' := (sortByScoreDesc_perm _).mem_iff.mp hc
    rcases mem_neg_places_details ha' with ⟨pa, da, _, _, _, rfl⟩
    rcases mem_neg_places_details hc' with ⟨pc, dc, _, _, _, rfl⟩
    simpa [scoreGE] using hge
  · intro xs e ys _
    rw [select_places_append]
    by_cases hfit : (select_places b (initial_cost lookup nn) xs).2 + e.cost ≤ b
    · simp only [select_places, if_pos hfit]
    · simp only [select_places, if_neg hfit]

/-- C6: a place whose details lookup fails (the external call raised, the keys
    were missing, or no number could be extracted — all the `none` cases of
    `get_place_details`) contributes no entry to `final_places`, and the whole
    run is identical to the run with that place removed from both input
    lists: the remaining places are processed unaffected, and nothing is
    raised. -/
theorem failed_lookup_place_skipped (responses : String → Option (List Char))
    (nn neg : List String) (b : ℚ) (t : String)
    (hfail : get_place_details (responses t) = none) :
    (∀ e ∈ (budget_run (fun p => get_place_details (responses p)) nn neg b).final_places,
        e.place ≠ t) ∧
    budget_run (fun p => get_place_details (responses p)) nn neg b =
      budget_run (fun p => get_place_details (responses p))
        (nn.filter (fun q => q != t)) (neg.filter (fun q => q != t)) b := by
  set lookup : String → Option PlaceDetails := fun p => get_place_details (responses p) with hlookup
  have hl : lookup t = none := hfail
  have eq1 : non_neg_places_details lookup (nn.filter (fun q => q != t)) =
      non_neg_places_details lookup nn :=
    filterMap_filter_of_none _ t (by rw [hl]; rfl) nn
  have eq2 : neg_places_details lookup (nn.filter (fun q => q != t))
      (neg.filter (fun q => q != t)) = neg_places_details lookup nn neg := by
    unfold neg_places_details unique_neg_places
    rw [dedup_filter_comm, List.filter_filter]
    refine filterMap_filter_congr _ _ _ neg.dedup ?_
    intro a _
    by_cases ha : a = t
    · subst ha
      right
      rw [hl]
    · left
      have hcont : (nn.filter (fun q => q != t)).contains a = nn.contains a := by
        simp [List.contains, List.elem_eq_mem, List.mem_filter, ha]
      simp [hcont, ha]
  constructor
  · intro e he
    rw [budget_run_def] at he
    rcases List.mem_append.mp he with hmem | hmem
    · rcases mem_non_neg_places_details hmem with ⟨place, d, _, hd, rfl⟩
      intro hpt
      rw [show (⟨place, d.cost, d.review_score, none⟩ : PlaceEntry).place = place from rfl]
        at hpt
      rw [hpt, hl] at hd
      exact Option.noConfusion hd
    · have hsorted := mem_select_places _ _ _ _ hmem
      have hcand : e ∈ neg_places_details lookup nn neg := by
        unfold sorted_neg_details at hsorted
        exact (sortByScoreDesc_perm _).mem_iff.mp hsorted
      rcases mem_neg_places_details hcand with ⟨place, d, _, hd, _, rfl⟩
      intro hpt
      rw [show (⟨place, d.cost, d.review_score,
        some (d.review_score / d.cost)⟩ : PlaceEntry).place = place from rfl] at hpt
      rw [hpt, hl] at hd
      exact Option.noConfusion hd
  · rw [budget_run_def, budget_run_def]
    simp only [sorted_neg_details, initial_cost, eq1, eq2]

/-- C7: a completed run performs exactly one file write, of the output object
    whose keys are exactly `final_places`, `total_estimated_cost`,
    `total_budget`, in that order. -/
theorem single_output_file_with_exact_keys (lookup : String → Option PlaceDetails)
    (nn neg : List String) (bstr : String) (out : BudgetOutput)
    (h : budget_agent lookup nn neg bstr = some out) :
    budget_agent_writes lookup nn neg bstr = [("budget_output.json", output_pairs out)] ∧
    (output_pairs out).map Prod.fst =
      ["final_places", "total_estimated_cost", "total_budget"] := by
  refine ⟨?_, rfl⟩
  rw [budget_agent_writes, h]

/-- C8: the recorded `total_estimated_cost` equals the sum of the `cost`
    fields over the entries of `final_places` (mandatory and selected
    optional alike), for every lookup outcome. -/
theorem total_cost_is_sum_of_final_places (lookup : String → Option PlaceDetails)
    (nn neg : List String) (b : ℚ) :
    (budget_run lookup nn neg b).total_estimated_cost =
      ((budget_run lookup nn neg b).final_places.map PlaceEntry.cost).sum := by
  rw [budget_run_def]
  show (select_places b (initial_cost lookup nn) (sorted_neg_details lookup nn neg)).2 = _
  rw [select_places_snd, List.map_append, List.sum_append]
  rfl

/-- C9: every optional candidate retained for scoring has strictly positive
    cost and its stored score is exactly `review_score / cost`; a candidate
    whose looked-up cost is less than or equal to zero is excluded from the
    candidate list entirely, so the score division never divides by zero. -/
theorem optional_candidate_cost_positive (lookup : String → Option PlaceDetails)
    (nn neg : List String) :
    (∀ e ∈ neg_places_details lookup nn neg,
        0 < e.cost ∧ e.score = some (e.review_score / e.cost)) ∧
    (∀ place d, lookup place = some d → d.cost ≤ 0 →
        ∀ e ∈ neg_places_details lookup nn neg, e.place ≠ place) := by
  constructor
  · intro e he
    rcases mem_neg_places_details he with ⟨place, d, _, _, hc, rfl⟩
    exact ⟨hc, rfl⟩
  · intro place d hd hc e he
    rcases mem_neg_places_details he with ⟨place', d', _, hd', hc', rfl⟩
    intro hpt
    rw [show (⟨place', d'.cost, d'.review_score,
      some (d'.review_score / d'.cost)⟩ : PlaceEntry).place = place' from rfl] at hpt
    subst hpt
    rw [hd] at hd'
    exact absurd hc (not_le.mpr (Option.some_inj.mp hd' ▸ hc'))

/-- Witness for C1 (amended): a concrete run where the mandatory places fit. -/
theorem budget_within_budget_witness :
    initial_cost witnessLookup ["m"] ≤ 300 ∧
    (budget_run witnessLookup ["m"] ["a", "b", "z"] 300).total_estimated_cost ≤
      (budget_run witnessLookup ["m"] ["a", "b", "z"] 300).total_budget := by
  have h : initial_cost witnessLookup ["m"] ≤ 300 := by
    simp +decide [initial_cost, non_neg_places_details, witnessLookup]
  exact ⟨h, budget_within_budget_of_mandatory_fits witnessLookup ["m"] ["a", "b", "z"] 300 h⟩

/-- Witness for C2 (amended): the mandatory place `m` with a successful
    lookup lands in `final_places`. -/
theorem mandatory_place_included_witness :
    "m" ∈ ["m"] ∧ witnessLookup "m" = some ⟨250, 9⟩ ∧
    (⟨"m", (250 : ℚ), (9 : ℚ), none⟩ : PlaceEntry) ∈
      (budget_run witnessLookup ["m"] ["a", "b", "z"] 300).final_places :=
  ⟨by decide, by decide,
    mandatory_place_included witnessLookup ["m"] ["a", "b", "z"] 300 "m" ⟨250, 9⟩
      (by decide) (by decide)⟩

/-- Witness for C3: the concrete scan order is `b` (ratio 1/5) before `a`
    (ratio 1/10), and at the split after `[b]` the candidate `a` (which no
    longer fits: 280 + 100 > 300) is skipped while the scan continues. -/
theorem optional_selection_sorted_first_fit_witness :
    (sorted_neg_details witnessLookup ["m"] ["a", "b", "z"]).Perm
      (neg_places_details witnessLookup ["m"] ["a", "b", "z"]) ∧
    (sorted_neg_details witnessLookup ["m"] ["a", "b", "z"]).Pairwise
      (fun a c => c.review_score / c.cost ≤ a.review_score / a.cost) ∧
    (budget_run witnessLookup ["m"] ["a", "b", "z"] 300).final_places =
      non_neg_places_details witnessLookup ["m"] ++
        (select_places 300 (initial_cost witnessLookup ["m"])
          (sorted_neg_details witnessLookup ["m"] ["a", "b", "z"])).1 ∧
    (select_places 300 (initial_cost witnessLookup ["m"])
        ([⟨"b", 30, 6, some (1/5)⟩] ++ ⟨"a", 100, 10, some (1/10)⟩ :: [])).1 =
      (select_places 300 (initial_cost witnessLookup ["m"]) [⟨"b", 30, 6, some (1/5)⟩]).1 ++
        (if (select_places 300 (initial_cost witnessLookup ["m"])
              [⟨"b", 30, 6, some (1/5)⟩]).2 + (⟨"a", 100, 10, some (1/10)⟩ : PlaceEntry).cost
              ≤ 300 then
          (⟨"a", 100, 10, some (1/10)⟩ : PlaceEntry) ::
            (select_places 300
              ((select_places 300 (initial_cost witnessLookup ["m"])
                  [⟨"b", 30, 6, some (1/5)⟩]).2 +
                (⟨"a", 100, 10, some (1/10)⟩ : PlaceEntry).cost) []).1
        else
          (select_places 300
            ((select_places 300 (initial_cost witnessLookup ["m"])
              [⟨"b", 30, 6, some (1/5)⟩]).2) []).1) := by
  obtain ⟨h1, h2, h3, h4⟩ :=
    optional_selection_sorted_first_fit witnessLookup ["m"] ["a", "b", "z"] 300
  refine ⟨h1, h2, h3,
    h4 [⟨"b", 30, 6, some (1/5)⟩] ⟨"a", 100, 10, some (1/10)⟩ [] ?_⟩
  simp +decide [sorted_neg_details, neg_places_details, unique_neg_places, witnessLookup,
    sortByScoreDesc, insertDesc, scoreGE, List.dedup, List.pwFilter]
  norm_num

/-- Witness for C6: place `bad` has an unparseable response; the run drops it
    and matches the run on the inputs without it. -/
theorem failed_lookup_place_skipped_witness :
    get_place_details (witnessResponses "bad") = none ∧
    (∀ e ∈ (budget_run (fun p => get_place_details (witnessResponses p))
        ["m", "bad"] ["b", "bad"] 300).final_places, e.place ≠ "bad") ∧
    budget_run (fun p => get_place_details (witnessResponses p))
        ["m", "bad"] ["b", "bad"] 300 =
      budget_run (fun p => get_place_details (witnessResponses p))
        (["m", "bad"].filter (fun q => q != "bad"))
        (["b", "bad"].filter (fun q => q != "bad")) 300 := by
  refine ⟨rfl, ?_⟩
  exact failed_lookup_place_skipped witnessResponses ["m", "bad"] ["b", "bad"] 300 "bad" rfl

/-- Witness for C7: a completed concrete run writes the single output file
    with exactly the three keys. -/
theorem single_output_file_with_exact_keys_witness :
    budget_agent_writes witnessLookup ["m"] [] "$300" =
      [("budget_output.json", output_pairs ⟨[⟨"m", 250, 9, none⟩], 250, 300⟩)] ∧
    (output_pairs ⟨[⟨"m", 250, 9, none⟩], 250, 300⟩).map Prod.fst =
      ["final_places", "total_estimated_cost", "total_budget"] :=
  single_output_file_with_exact_keys witnessLookup ["m"] [] "$300"
    ⟨[⟨"m", 250, 9, none⟩], 250, 300⟩ (by
      have hb : parse_budget "$300" = some 300 := by
        simp +decide [parse_budget, stripNonNumeric, floatOfDigitsDots, digitsToNat]
      simp +decide [budget_agent, hb, budget_run, initial_cost, non_neg_places_details,
        neg_places_details, unique_neg_places, sorted_neg_details, sortByScoreDesc,
        select_places, List.dedup, witnessLookup])

/-- Witness for C9: the retained candidate `b` has positive cost and stored
    ratio `6 / 30 = 1/5`; the zero-cost candidate `z` produces no entry. -/
theorem optional_candidate_cost_positive_witness :
    (0 < (⟨"b", (30 : ℚ), (6 : ℚ), some (1/5)⟩ : PlaceEntry).cost ∧
      (⟨"b", (30 : ℚ), (6 : ℚ), some (1/5)⟩ : PlaceEntry).score =
        some ((⟨"b", (30 : ℚ), (6 : ℚ), some (1/5)⟩ : PlaceEntry).review_score /
          (⟨"b", (30 : ℚ), (6 : ℚ), some (1/5)⟩ : PlaceEntry).cost)) ∧
    (⟨"b", (30 : ℚ), (6 : ℚ), some (1/5)⟩ : PlaceEntry).place ≠ "z" := by
  have hmem : (⟨"b", 30, 6, some (1/5)⟩ : PlaceEntry) ∈
      neg_places_details witnessLookup ["m"] ["a", "b", "z"] := by
    simp +decide [neg_places_details, unique_neg_places, witnessLookup, List.dedup,
      List.pwFilter]
    norm_num
  obtain ⟨h1, h2⟩ := optional_candidate_cost_positive witnessLookup ["m"] ["a", "b", "z"]
  exact ⟨h1 _ hmem, h2 "z" ⟨0, 5⟩ (by decide) (by norm_num) _ hmem⟩

/-! ## Helper lemmas: the fenced-block regex on a single well-formed fence -/

theorem isPrefixOf_append_self {α : Type} [BEq α] [LawfulBEq α] :
    ∀ (l r : List α), l.isPrefixOf (l ++ r) = true
  | [], _ => by simp [List.isPrefixOf]
  | a :: l, r => by simp [List.isPrefixOf, isPrefixOf_append_self l r]

theorem fence_scan_blocked :
    ∀ (l : List Char), tick ∉ l → ∀ r : List Char,
      fence.isPrefixOf (dropREWS (l ++ '}' :: r)) = false
  | [], _, r => by
    simp only [List.nil_append]
    rw [show dropREWS ('}' :: r) = '}' :: r from rfl]
    rfl
  | c :: l, h, r => by
    have hc : c ≠ tick := fun hct => h (hct ▸ List.mem_cons_self c l)
    have hl : tick ∉ l := fun hm => h (List.mem_cons_of_mem c hm)
    by_cases hws : reWS c
    · rw [List.cons_append, show dropREWS (c :: (l ++ '}' :: r)) =
        dropREWS (l ++ '}' :: r) from by simp [dropREWS, List.dropWhile, hws]]
      exact fence_scan_blocked l hl r
    · rw [List.cons_append, show dropREWS (c :: (l ++ '}' :: r)) =
        c :: (l ++ '}' :: r) from by simp [dropREWS, List.dropWhile, hws]]
      have : (tick == c) = false := by
        simp only [beq_eq_false_iff_ne, ne_eq]
        exact fun hct => hc hct.symm
      simp [fence, List.isPrefixOf, this, tick]
      intro hct
      exact absurd hct.symm hc

theorem findClose_fence :
    ∀ (mid : List Char), tick ∉ mid → ∀ (acc tail : List Char),
      findClose acc (mid ++ '}' :: '\n' :: (fence ++ tail)) =
        some (acc.reverse ++ (mid ++ ['}']))
  | [], _, acc, tail => by
    simp only [List.nil_append]
    rw [findClose]
    rw [show dropREWS ('\n' :: (fence ++ tail)) = fence ++ tail from by
      simp [dropREWS, List.dropWhile, reWS, fence, tick]]
    rw [isPrefixOf_append_self]
    simp
  | c :: mid, h, acc, tail => by
    have hl : tick ∉ mid := fun hm => h (List.mem_cons_of_mem c hm)
    rw [List.cons_append, findClose]
    rw [fence_scan_blocked mid hl ('\n' :: (fence ++ tail))]
    rw [Bool.and_false, if_neg (by simp)]
    rw [findClose_fence mid hl (c :: acc) tail]
    simp

theorem tryFencedAt_fenceWrap (mid : List Char) (h : tick ∉ mid) :
    tryFencedAt (fenceWrap ('{' :: (mid ++ ['}']))) = some ('{' :: (mid ++ ['}'])) := by
  rw [show fenceWrap ('{' :: (mid ++ ['}'])) =
    "```json".toList ++ ('\n' :: ('{' :: (mid ++ ['}'])) ++ ('\n' :: fence)) from by
      simp [fenceWrap, fence]]
  rw [tryFencedAt]
  rw [isPrefixOf_append_self]
  rw [if_pos rfl]
  rw [show ("```json".toList ++ ('\n' :: ('{' :: (mid ++ ['}'])) ++ ('\n' :: fence))).drop 7 =
    '\n' :: ('{' :: (mid ++ ['}'])) ++ ('\n' :: fence) from by
      rw [show (7 : Nat) = "```json".toList.length from rfl, List.drop_left]]
  rw [show dropREWS ('\n' :: ('{' :: (mid ++ ['}'])) ++ ('\n' :: fence)) =
    '{' :: ((mid ++ ['}']) ++ ('\n' :: fence)) from by
      simp [dropREWS, List.dropWhile, reWS]]
  rw [show (mid ++ ['}']) ++ ('\n' :: fence) = mid ++ '}' :: '\n' :: (fence ++ []) from by
    simp]
  show findClose ['{'] (mid ++ '}' :: '\n' :: (fence ++ [])) = some ('{' :: (mid ++ ['}']))
  rw [findClose_fence mid h ['{'] []]
  simp

theorem searchFenced_fenceWrap (mid : List Char) (h : tick ∉ mid) :
    searchFenced (fenceWrap ('{' :: (mid ++ ['}']))) = some ('{' :: (mid ++ ['}'])) := by
  rw [show fenceWrap ('{' :: (mid ++ ['}'])) =
    tick :: ("``json\n".toList ++ ('{' :: (mid ++ ['}'])) ++ "\n```".toList) from by
      simp [fenceWrap, tick]]
  rw [searchFenced]
  rw [show (tick :: ("``json\n".toList ++ ('{' :: (mid ++ ['}'])) ++ "\n```".toList)) =
    fenceWrap ('{' :: (mid ++ ['}'])) from by simp [fenceWrap, tick]]
  rw [tryFencedAt_fenceWrap mid h]

/-! ## The claims about `extract_json_from_text` -/

/-- C4 (amended): when the fenced regex matches, the result is exactly the
    JSON parse of its captured group — in particular, a single well-formed
    backtick-free fenced block is extracted and parsed in full; when the
    matched capture is malformed, the result is `None` (no exception, and no
    later strategy is consulted); and when nothing matches or parses the
    result is `None`.  (The unamended claim is false: a well-formed fenced
    block later in the text is ignored once an earlier fenced match fails to
    parse, see `fenced_block_counterexample`.) -/
theorem fenced_extraction_amended :
    (∀ (mid : List Char) (v : JVal), tick ∉ mid →
      jsonParse ('{' :: (mid ++ ['}'])) = some v →
      extract_json_from_text (fenceWrap ('{' :: (mid ++ ['}']))) = some v) ∧
    (∀ t g, searchFenced t = some g → jsonParse g = none →
      extract_json_from_text t = none) ∧
    (∀ t, searchFenced t = none → searchLoose t = none → jsonParse t = none →
      extract_json_from_text t = none) := by
  refine ⟨?_, ?_, ?_⟩
  · intro mid v hmid hv
    simp only [extract_json_from_text, searchFenced_fenceWrap mid hmid]
    exact hv
  · intro t g hs hp
    simp only [extract_json_from_text, hs, hp]
  · intro t h1 h2 h3
    simp only [extract_json_from_text, h1, h2]
    exact h3

/-- Witness for C4 (amended): the block `{"a": "b"}` wrapped in a fence is
    extracted and parsed. -/
theorem fenced_extraction_amended_witness :
    tick ∉ "\"a\": \"b\"".toList ∧
    jsonParse ('{' :: ("\"a\": \"b\"".toList ++ ['}'])) =
      some (JVal.obj [("a".toList, JVal.str "b".toList)]) ∧
    extract_json_from_text (fenceWrap ('{' :: ("\"a\": \"b\"".toList ++ ['}']))) =
      some (JVal.obj [("a".toList, JVal.str "b".toList)]) :=
  ⟨by decide, rfl, fenced_extraction_amended.1 "\"a\": \"b\"".toList
    (JVal.obj [("a".toList, JVal.str "b".toList)]) (by decide) rfl⟩

/-- C4 counterexample: this text contains the well-formed fenced block
    `` ```json {"a": 1} ``` `` (third conjunct: its content parses), yet the
    function returns `None`, because the fenced regex matches earlier with
    the unparseable capture `{oops}` (second conjunct). -/
theorem fenced_block_counterexample :
    extract_json_from_text "```json \x7boops\x7d ``` ```json \x7b\"a\": 1\x7d ```".toList = none ∧
    searchFenced "```json \x7boops\x7d ``` ```json \x7b\"a\": 1\x7d ```".toList =
      some "\x7boops\x7d".toList ∧
    (jsonParse "\x7b\"a\": 1\x7d".toList).isSome = true :=
  ⟨rfl, by decide, rfl⟩

/-- C5 (amended): the strategies are attempted in the fixed order fenced
    block → loose `trip_overview` object → whole text, but a later strategy
    is consulted only when the earlier regex fails to match: once a regex
    matches, the result is the JSON parse of its capture, even when that
    parse fails.  (The unamended claim — the result is the first strategy
    that yields a parsed object — is false, see `fallback_counterexample`.) -/
theorem fallback_order_amended (t : List Char) :
    (∀ g, searchFenced t = some g → extract_json_from_text t = jsonParse g) ∧
    (searchFenced t = none → ∀ g, searchLoose t = some g →
      extract_json_from_text t = jsonParse g) ∧
    (searchFenced t = none → searchLoose t = none →
      extract_json_from_text t = jsonParse t) := by
  refine ⟨?_, ?_, ?_⟩
  · intro g hs
    simp only [extract_json_from_text, hs]
  · intro h1 g h2
    simp only [extract_json_from_text, h1, h2]
  · intro h1 h2
    simp only [extract_json_from_text, h1, h2]

/-- Witness for C5 (amended): on a text whose fenced regex matches, the
    result is the parse of the captured group. -/
theorem fallback_order_amended_witness :
    searchFenced "```json \x7b\"k\": \"v\"\x7d ```".toList = some "\x7b\"k\": \"v\"\x7d".toList ∧
    extract_json_from_text "```json \x7b\"k\": \"v\"\x7d ```".toList =
      jsonParse "\x7b\"k\": \"v\"\x7d".toList :=
  ⟨by decide, (fallback_order_amended "```json \x7b\"k\": \"v\"\x7d ```".toList).1
    "\x7b\"k\": \"v\"\x7d".toList (by decide)⟩

/-- C5 counterexample: the fenced regex matches with the unparseable capture
    `{"a": }`, so the function returns `None` — even though the second
    strategy (the loose `trip_overview` regex, second conjunct) would have
    yielded a parsed object (third conjunct).  The result is therefore not
    "the first strategy that yields a parsed object". -/
theorem fallback_counterexample :
    extract_json_from_text "```json\n\x7b\"a\": \x7d \n``` \x7b\"trip_overview\": \"x\"\x7d".toList =
      none ∧
    searchLoose "```json\n\x7b\"a\": \x7d \n``` \x7b\"trip_overview\": \"x\"\x7d".toList =
      some "\x7b\"trip_overview\": \"x\"\x7d".toList ∧
    (jsonParse "\x7b\"trip_overview\": \"x\"\x7d".toList).isSome = true :=
  ⟨rfl, by decide, rfl⟩

/-! ## The claim about `StyleAgent._parse_and_validate_json` -/

/-- C10: every dictionary returned (rather than raised over) by
    `_parse_and_validate_json` has a string `places` field and a
    list-of-strings `locations` field, and the number of newline-separated
    names in the stripped `places` string equals the length of the
    `locations` list. -/
theorem style_places_locations_count_match (s : List Char) (d : JVal)
    (h : parse_and_validate_json s = some d) :
    ∃ kvs places locs,
      d = JVal.obj kvs ∧
      jlookup kvs "places".toList = some (JVal.str places) ∧
      jlookup kvs "locations".toList = some (JVal.arr locs) ∧
      locs.all isStrVal = true ∧
      (splitNl (pyStrip places)).length = locs.length := by
  rw [parse_and_validate_json] at h
  split at h
  · exact Option.noConfusion h
  · split at h
    · split at h
      · rename_i x0 kvs hjson x1 x2 places locs hp hl hcond
        rw [Bool.and_eq_true] at hcond
        obtain ⟨hall, hlen⟩ := hcond
        exact ⟨kvs, places, locs, (Option.some_inj.mp h).symm, hp, hl, hall,
          beq_iff_eq.mp hlen⟩
      · exact Option.noConfusion h
    · exact Option.noConfusion h
  · exact Option.noConfusion h

/-- Witness for C10: a concrete accepted response with two places and two
    locations. -/
theorem style_places_locations_count_match_witness :
    parse_and_validate_json "\x7b\"places\": \"a\\nb\", \"locations\": [\"x\", \"y\"]\x7d".toList =
      some (JVal.obj [("places".toList, JVal.str "a\nb".toList),
        ("locations".toList, JVal.arr [JVal.str "x".toList, JVal.str "y".toList])]) ∧
    ∃ kvs places locs,
      (JVal.obj [("places".toList, JVal.str "a\nb".toList),
        ("locations".toList, JVal.arr [JVal.str "x".toList, JVal.str "y".toList])]) =
          JVal.obj kvs ∧
      jlookup kvs "places".toList = some (JVal.str places) ∧
      jlookup kvs "locations".toList = some (JVal.arr locs) ∧
      locs.all isStrVal = true ∧
      (splitNl (pyStrip places)).length = locs.length :=
  ⟨rfl, style_places_locations_count_match
    "\x7b\"places\": \"a\\nb\", \"locations\": [\"x\", \"y\"]\x7d".toList
    (JVal.obj [("places".toList, JVal.str "a\nb".toList),
      ("locations".toList, JVal.arr [JVal.str "x".toList, JVal.str "y".toList])]) rfl⟩

end TravelAI
